import Mathlib

/-!
# Verification of the CinemaComponents core (lanl/cinema_components)

Shallow embedding of the data model, querying and selection engine of
`src/examples/lib/CinemaComponents.js`, together with proofs checking the
natural-language specification against the code.

Modelling conventions:
* JavaScript's untyped values are modelled by the inductive type `JSVal`
  (`undef` = `undefined`, `nan` = the number `NaN`, `num q` = a finite
  number, `str s` = a string).  Numbers are modelled by exact rationals;
  `NaN` is tracked explicitly, so arithmetic that may produce `NaN` works
  on `Option ℚ` with `none` standing for `NaN`.
* The JS `Number(string)` coercion is modelled for plain decimal literals
  (optional sign, digits, optional fraction); all other strings coerce to
  `NaN`.  This covers every value the claims exercise.
* Rows are total functions `String → JSVal` (a JS object lookup returns
  `undefined` for absent keys).
-/

namespace Cinema

/-- A JavaScript value as used by the library: `undefined`, the number `NaN`,
a finite number, or a string. -/
inductive JSVal where
  | undef : JSVal
  | nan : JSVal
  | num : ℚ → JSVal
  | str : String → JSVal
deriving DecidableEq, Repr

/-- Value of a digit character. -/
def digitVal (c : Char) : ℕ := c.toNat - '0'.toNat

/-- Numeric value of a list of decimal digit characters. -/
def digitsVal (cs : List Char) : ℕ := cs.foldl (fun acc c => 10 * acc + digitVal c) 0

/-- Parse an unsigned decimal literal (digits, optionally followed by a
point and more digits). Mirrors the decimal-literal part of the JS
`Number(string)` coercion. -/
def parseUnsignedDec (cs : List Char) : Option ℚ :=
  let intPart := cs.takeWhile Char.isDigit
  let rest := cs.drop intPart.length
  match rest with
  | [] => if intPart = [] then none else some (digitsVal intPart)
  | '.' :: frac =>
    if frac.all Char.isDigit ∧ (intPart ≠ [] ∨ frac ≠ []) then
      some ((digitsVal intPart : ℚ) + (digitsVal frac : ℚ) / (10 : ℚ) ^ frac.length)
    else none
  | _ => none

/-- Strip leading and trailing whitespace (the JS coercion trims the
string first). -/
def trimList (cs : List Char) : List Char :=
  ((cs.dropWhile Char.isWhitespace).reverse.dropWhile Char.isWhitespace).reverse

/-- The JS `Number(string)` coercion, restricted to plain decimal literals.
The empty (or all-whitespace) string coerces to `0`; a string that is not a
decimal literal coerces to `NaN` (`none`). -/
def parseJSNumber (s : String) : Option ℚ :=
  match trimList s.toList with
  | [] => some 0
  | '-' :: cs => (parseUnsignedDec cs).map (fun q => -q)
  | '+' :: cs => parseUnsignedDec cs
  | cs => parseUnsignedDec cs

/-- The JS `Number(v)` coercion on our value model (`none` = `NaN`). -/
def jsToNumber : JSVal → Option ℚ
  | JSVal.undef => none
  | JSVal.nan => none
  | JSVal.num q => some q
  | JSVal.str s => parseJSNumber s

/-- The JS global `isNaN` (coerces its argument to a number first; in
particular `isNaN(undefined)` is `true`). -/
def jsIsNaN (v : JSVal) : Bool := (jsToNumber v).isNone

/-- JS truthiness of a value. -/
def truthy : JSVal → Bool
  | JSVal.undef => false
  | JSVal.nan => false
  | JSVal.num q => q ≠ 0
  | JSVal.str s => s ≠ ""

/-- JS loose equality (`==`) on the fragment of values the library
manipulates: strings compare with numbers by numeric coercion, `NaN` and
`undefined` are equal only as `undefined == undefined`. -/
def jsLooseEq : JSVal → JSVal → Bool
  | JSVal.undef, JSVal.undef => true
  | JSVal.undef, _ => false
  | _, JSVal.undef => false
  | JSVal.nan, _ => false
  | _, JSVal.nan => false
  | JSVal.num a, JSVal.num b => a = b
  | JSVal.str a, JSVal.str b => a = b
  | JSVal.num a, JSVal.str s => parseJSNumber s = some a
  | JSVal.str s, JSVal.num b => parseJSNumber s = some b

/-- `ECMA Number.isInteger`: `false` on every non-number (no coercion). -/
def jsNumberIsInteger : JSVal → Bool
  | JSVal.num q => q.den = 1
  | _ => false

/-- `String.prototype.toUpperCase`, lifted to values (only ever applied to
strings by the library). -/
def jsToUpperCase : JSVal → String
  | JSVal.str s => (s.toList.map Char.toUpper).asString
  | _ => ""

/-- NaN-propagating addition on JS numbers. -/
def jsAdd : Option ℚ → Option ℚ → Option ℚ
  | some a, some b => some (a + b)
  | _, _ => none

/-- NaN-propagating subtraction on JS numbers. -/
def jsSub : Option ℚ → Option ℚ → Option ℚ
  | some a, some b => some (a - b)
  | _, _ => none

/-- NaN-propagating absolute value on JS numbers. -/
def jsAbs : Option ℚ → Option ℚ
  | some a => some |a|
  | none => none

/-- The JS comparison `x <= t`: `false` whenever `x` is `NaN`. -/
def jsLe (x : Option ℚ) (t : ℚ) : Bool :=
  match x with
  | some a => a ≤ t
  | none => false

/-!
## Pick-Index Codec (`indexToColor` / `colorToIndex`)

From the Glyph module of `CinemaComponents.js`:

    var indexToColor = function(i) {
      if (i > 256*256*256) { return 'rgb(255,255,255)'; }
      i++;
      var b = Math.floor(i/256/256);
      var g = Math.floor((i - b*256*256) / 256);
      var r = (i - b*256*256 - g*256);
      return 'rgb('+r+','+g+','+b+')';
    }
    var colorToIndex = function(rgb) {
      return (rgb[0] + rgb[1]*256 + rgb[2]*256*256)-1;
    }

Colors are modelled as integer triples `(r, g, b)`; `Math.floor` of an
integer quotient is floor division (`Int.fdiv`).
-/

/-- `indexToColor` from the source: encode an item index as an RGB triple. -/
def indexToColor (i : ℤ) : ℤ × ℤ × ℤ :=
  if i > 256 * 256 * 256 then (255, 255, 255)
  else
    let n := i + 1
    let b := Int.fdiv (Int.fdiv n 256) 256
    let g := Int.fdiv (n - b * (256 * 256)) 256
    let r := n - b * (256 * 256) - g * 256
    (r, g, b)

/-- `colorToIndex` from the source: decode an RGB triple to an item index. -/
def colorToIndex (c : ℤ × ℤ × ℤ) : ℤ :=
  (c.1 + c.2.1 * 256 + c.2.2 * (256 * 256)) - 1

/-!
## Tabular Parser (`parseCSV`)

The source parses CSV text by repeatedly applying the regex

    /(\,|\r?\n|\r|^)(?:"([^"]*(?:""[^"]*)*)"|([^\,\r\n]*))/gi

with `exec`.  Each match is a delimiter (comma, newline, or the start of
the text) followed by either a quoted field (doubled quotes encode a
literal quote) or an unquoted field (a maximal run of characters other
than comma and newline).  We model one `exec` step at a position as trying
the delimiter alternatives in the regex's order; if none applies the
engine advances one character (characters between matches are skipped,
exactly as `exec` does).

Matched fields are then pushed onto the grid: a delimiter other than a
comma opens a new row; a quoted field is pushed with its doubled quotes
collapsed; an unquoted field is pushed the same way except that the empty
unquoted field is pushed as `undefined` (`none`).  Pushing a cell when no
row has been opened (text starting with a comma) is a JS `TypeError`,
modelled by `Option`.
-/

/-- A single field match of the CSV regex: the capture of the quoted
alternative, or of the unquoted alternative. -/
inductive CellMatch where
  | quoted : String → CellMatch
  | unquoted : String → CellMatch
deriving DecidableEq, Repr

/-- The body of the quoted alternative `"([^"]*(?:""[^"]*)*)"` after the
opening quote: content in which quotes occur doubled, up to a closing
quote.  Returns the captured content (doubled quotes kept, as in the
regex capture) and the remainder; on a trailing doubled quote that cannot
be followed by a closing quote the regex backtracks and closes at the
first quote instead. -/
def quotedBody : List Char → Option (List Char × List Char)
  | [] => none
  | '"' :: '"' :: rest =>
    match quotedBody rest with
    | some (c, r) => some ('"' :: '"' :: c, r)
    | none => some ([], '"' :: rest)
  | '"' :: rest => some ([], rest)
  | c :: rest => (quotedBody rest).map (fun p => (c :: p.1, p.2))

/-- Characters an unquoted field may contain: `[^\,\r\n]`. -/
def notSpecial (c : Char) : Bool := c ≠ ',' && c ≠ '\r' && c ≠ '\n'

/-- The value part of one regex match at a position: the quoted alternative
if it applies, otherwise the (possibly empty) unquoted alternative.
Returns the match and the remainder of the text. -/
def lexValue (cs : List Char) : CellMatch × List Char :=
  match cs with
  | '"' :: r =>
    match quotedBody r with
    | some (content, r2) => (CellMatch.quoted content.asString, r2)
    | none =>
      (CellMatch.unquoted (cs.takeWhile notSpecial).asString,
        cs.drop (cs.takeWhile notSpecial).length)
  | _ =>
    (CellMatch.unquoted (cs.takeWhile notSpecial).asString,
      cs.drop (cs.takeWhile notSpecial).length)

/-- The `exec` loop after the first match: a match at the current position
needs a one-or-two character delimiter (tried in the regex's alternation
order) followed by a value; where no delimiter matches, the engine
advances one character.  Structural recursion on a fuel that starts at the
text length; every step consumes at least one character, so the fuel never
runs out (`lexRestFuel_congr` makes the fuel-independence precise). -/
def lexRestFuel : ℕ → List Char → List (Bool × CellMatch)
  | 0, _ => []
  | fuel+1, cs =>
    match cs with
    | [] => []
    | ',' :: rest => (true, (lexValue rest).1) :: lexRestFuel fuel (lexValue rest).2
    | '\r' :: '\n' :: rest => (false, (lexValue rest).1) :: lexRestFuel fuel (lexValue rest).2
    | '\n' :: rest => (false, (lexValue rest).1) :: lexRestFuel fuel (lexValue rest).2
    | '\r' :: rest => (false, (lexValue rest).1) :: lexRestFuel fuel (lexValue rest).2
    | _ :: rest => lexRestFuel fuel rest

/-- The `exec` loop from position `> 0`. -/
def lexRest (cs : List Char) : List (Bool × CellMatch) := lexRestFuel cs.length cs

/-- All matches of the CSV regex over the text.  At position `0`, `^`
matches the empty delimiter whenever no explicit delimiter character does
(the Boolean in each token records whether the delimiter was a comma). -/
def lexTokens (cs : List Char) : List (Bool × CellMatch) :=
  match cs with
  | [] => []
  | ',' :: rest => (true, (lexValue rest).1) :: lexRest (lexValue rest).2
  | '\r' :: '\n' :: rest => (false, (lexValue rest).1) :: lexRest (lexValue rest).2
  | '\n' :: rest => (false, (lexValue rest).1) :: lexRest (lexValue rest).2
  | '\r' :: rest => (false, (lexValue rest).1) :: lexRest (lexValue rest).2
  | _ => (false, (lexValue cs).1) :: lexRest (lexValue cs).2

/-- `value.replace(/""/g, String.fromCharCode(34))`: collapse each
left-to-right pair of quotes to a single quote. -/
def collapseQuotes : List Char → List Char
  | '"' :: '"' :: r => '"' :: collapseQuotes r
  | c :: r => c :: collapseQuotes r
  | [] => []

/-- String version of `collapseQuotes`. -/
def replaceDoubledQuotes (s : String) : String := (collapseQuotes s.toList).asString

/-- Decode one matched field into a grid cell, from the push step of the
source loop: a quoted field always yields a string (doubled quotes
collapsed); an unquoted field yields `undefined` (`none`) when empty and
a string otherwise. -/
def cellOfMatch : CellMatch → Option String
  | CellMatch.quoted raw => some (replaceDoubledQuotes raw)
  | CellMatch.unquoted raw =>
    if raw = "" then none else some (replaceDoubledQuotes raw)

/-- Push one token onto the grid: a non-comma delimiter opens a new row,
then the cell is appended to the last row.  Appending when no row exists
(text starting with a comma) is a JS `TypeError`, modelled by `none`. -/
def pushToken (grid : Option (List (List (Option String)))) (t : Bool × CellMatch) :
    Option (List (List (Option String))) :=
  match grid with
  | none => none
  | some rows =>
    let rows' := if t.1 then rows else rows ++ [[]]
    match rows'.getLast? with
    | none => none
    | some lastRow => some (rows'.dropLast ++ [lastRow ++ [cellOfMatch t.2]])

/-- Drop the artifact of a trailing newline: a final one-cell row holding
`undefined`, provided it is not the only row. -/
def dropTrailingBlank (data : List (List (Option String))) : List (List (Option String)) :=
  match data.getLast? with
  | some [none] => if data.length > 1 then data.dropLast else data
  | _ => data

/-- `parseCSV` from the source: parse CSV text into a grid of optional
strings (`none` = missing value). -/
def parseCSV (csvText : String) : Option (List (List (Option String))) :=
  if csvText = "" then some []
  else ((lexTokens csvText.toList).foldl pushToken (some [])).map dropTrailingBlank

/-!
## Dataset (`CINEMA_COMPONENTS.Database`)

The constructor takes the parsed grid: the first line is the dimension
list, the remaining lines become rows (JS objects mapping dimension name
to cell).  For each dimension it infers a type from the first truthy cell
(`if (self.data[i][d])` — JS truthiness, so missing cells *and* empty
strings are skipped) and computes a domain.  Note that in the numeric
branch the source applies `Number.isInteger` to the raw string cell.
-/

/-- The dimension types `CINEMA_COMPONENTS.DIMENSION_TYPE`. -/
inductive DimType where
  | INTEGER : DimType
  | FLOAT : DimType
  | STRING : DimType
deriving DecidableEq, Repr

/-- A dimension domain, in the two shapes the source produces: a numeric
`[min, max]` pair, or the per-row value list of a string dimension. -/
inductive Domain where
  | range : ℚ → ℚ → Domain
  | vals : List JSVal → Domain
deriving DecidableEq, Repr

/-- A parsed cell as a JS value. -/
def optToVal : Option String → JSVal
  | none => JSVal.undef
  | some s => JSVal.str s

/-- Index of the last occurrence of `d` in `l` (JS object assignment in
header order: a later duplicate dimension name overwrites an earlier
one). -/
def lastIdxOf (l : List String) (d : String) : Option ℕ :=
  ((l.enum.filter (fun p => p.2 = d)).map Prod.fst).getLast?

/-- Build a row object from the header and one line of cells:
`self.dimensions.forEach(function(p,i){obj[p] = d[i];})`. -/
def rowObj (dims : List String) (cells : List (Option String)) : String → JSVal :=
  fun d =>
    match lastIdxOf dims d with
    | some i => optToVal (cells.getD i none)
    | none => JSVal.undef

/-- The value type inference samples: `val = data[0][d]`, overwritten by
the first truthy cell of the column if one exists. -/
def inferVal (data : List (String → JSVal)) (d : String) : JSVal :=
  let val0 := match data with
    | [] => JSVal.undef
    | r :: _ => r d
  match data.find? (fun r => truthy (r d)) with
  | some r => r d
  | none => val0

/-- Dimension type inference from the constructor:
`if (val && (!isNaN(val) || val.toUpperCase() === "NAN"))` selects the
numeric branch, which assigns `FLOAT` unless
`!isNaN(val) && Number.isInteger(val)`. -/
def inferType (data : List (String → JSVal)) (d : String) : DimType :=
  let val := inferVal data d
  if truthy val && (!(jsIsNaN val) || jsToUpperCase val == "NAN") then
    if jsIsNaN val || !(jsNumberIsInteger val) then DimType.FLOAT else DimType.INTEGER
  else DimType.STRING

/-- Numeric domain computation: find the first row whose cell is not
`NaN`; if none, `[0,0]`; otherwise min/max (JS `Math.min`/`Math.max`
coerce the string cells) over all non-`NaN` cells from that row on. -/
def numericDomain (data : List (String → JSVal)) (d : String) : ℚ × ℚ :=
  match data.dropWhile (fun r => jsIsNaN (r d)) with
  | [] => (0, 0)
  | r0 :: _ =>
    let v0 := (jsToNumber (r0 d)).getD 0
    (data.dropWhile (fun r => jsIsNaN (r d))).foldl
      (fun mm r =>
        if !(jsIsNaN (r d)) then
          (min mm.1 ((jsToNumber (r d)).getD 0), max mm.2 ((jsToNumber (r d)).getD 0))
        else mm)
      (v0, v0)

/-- The loaded dataset: dimension list, rows, per-dimension types and
domains. -/
structure Database where
  dimensions : List String
  data : List (String → JSVal)
  dimensionTypes : String → DimType
  dimensionDomains : String → Domain

/-- The `Database` constructor applied to an already-parsed grid
(`data_arr`): dimensions from the first line, rows from the rest, types
and domains per dimension.  (A `none` header cell would be used as the JS
object key `undefined`, i.e. the string key `"undefined"`.) -/
def makeDatabase (data_arr : List (List (Option String))) : Database :=
  let dimensions := (data_arr.headD []).map (fun o => o.getD "undefined")
  let data := data_arr.tail.map (fun cells => rowObj dimensions cells)
  { dimensions := dimensions
    data := data
    dimensionTypes := fun d => inferType data d
    dimensionDomains := fun d =>
      match inferType data d with
      | DimType.STRING => Domain.vals (data.map (fun r => r d))
      | _ => Domain.range (numericDomain data d).1 (numericDomain data d).2 }

/-- `Database.prototype.isStringDimension`. -/
def isStringDimension (db : Database) (d : String) : Bool :=
  db.dimensionTypes d = DimType.STRING

/-- `getNormalizedValue(val, min, max)` from the source, on JS numbers
(`none` = `NaN`): `(max-min == 0) ? 0 : ((val-min) / (max-min))`.
(`NaN == 0` is false, so a `NaN` denominator falls into the division and
produces `NaN`.) -/
def getNormalizedValue (val mn mx : Option ℚ) : Option ℚ :=
  if jsSub mx mn = some 0 then some 0
  else
    match jsSub val mn, jsSub mx mn with
    | some a, some b => some (a / b)
    | _, _ => none

/-- The two endpoints `extent[0]`, `extent[1]` of a stored domain, as JS
numbers (numeric coercion happens inside `getNormalizedValue`'s
subtractions; on a `vals` domain — unreachable from `getSimilar` on a
constructed database — JS would read the first two list entries). -/
def domainEndpoints : Domain → Option ℚ × Option ℚ
  | Domain.range lo hi => (some lo, some hi)
  | Domain.vals l => (jsToNumber (l.getD 0 JSVal.undef), jsToNumber (l.getD 1 JSVal.undef))

/-- The Manhattan distance accumulated by `Database.prototype.getSimilar`
for one row, with the source's exact branch order:
dimensions absent from the query are skipped; string dimensions compare
with JS `==`; then `isNaN(query[d])`, then `row[d] === undefined`, then
the normalized difference. -/
def getSimilarDist (db : Database) (query : String → JSVal) (row : String → JSVal) :
    Option ℚ :=
  db.dimensions.foldl
    (fun dist d =>
      if query d ≠ JSVal.undef then
        if isStringDimension db d then
          jsAdd dist (some (if jsLooseEq (row d) (query d) then 0 else 1))
        else if jsIsNaN (query d) then
          jsAdd dist (some (if jsIsNaN (row d) then 0 else 1))
        else if row d = JSVal.undef then
          jsAdd dist (some 1)
        else
          jsAdd dist (jsAbs (jsSub
            (getNormalizedValue (jsToNumber (query d))
              (domainEndpoints (db.dimensionDomains d)).1
              (domainEndpoints (db.dimensionDomains d)).2)
            (getNormalizedValue (jsToNumber (row d))
              (domainEndpoints (db.dimensionDomains d)).1
              (domainEndpoints (db.dimensionDomains d)).2)))
      else dist)
    (some 0)

/-- `Database.prototype.getSimilar`: the indices of the rows whose
distance to the query is `<=` the threshold (`NaN <= t` is false). -/
def getSimilar (db : Database) (query : String → JSVal) (threshold : ℚ) : List ℕ :=
  ((db.data.enum).filter (fun p => jsLe (getSimilarDist db query p.2) threshold)).map
    Prod.fst

/-- The amount `getSimilarDist` adds for one dimension (the skipped case
reads as adding `0`); used to relate the source's running accumulation to
a sum of per-dimension terms. -/
def getSimilarTerm (db : Database) (query row : String → JSVal) (d : String) :
    Option ℚ :=
  if query d ≠ JSVal.undef then
    if isStringDimension db d then
      some (if jsLooseEq (row d) (query d) then 0 else 1)
    else if jsIsNaN (query d) then
      some (if jsIsNaN (row d) then 0 else 1)
    else if row d = JSVal.undef then
      some 1
    else
      jsAbs (jsSub
        (getNormalizedValue (jsToNumber (query d))
          (domainEndpoints (db.dimensionDomains d)).1
          (domainEndpoints (db.dimensionDomains d)).2)
        (getNormalizedValue (jsToNumber (row d))
          (domainEndpoints (db.dimensionDomains d)).1
          (domainEndpoints (db.dimensionDomains d)).2))
  else some 0

/-!
## Specification-side distance (for checking `getSimilar` against §4.2)

The following definitions are written from the specification's words, not
from the source, to be compared with `getSimilar`: the distance is a sum
over the dimensions present in the query of a per-dimension term given by
a case table over the query value and the row value, the row value being
classified as missing, `NaN`, or a number.
-/

/-- Classification of a cell as the specification describes row values:
missing, `NaN` (a `NaN` literal, or any cell that does not read as a
number), or a number. -/
inductive RowCls where
  | missing : RowCls
  | nanVal : RowCls
  | numVal : ℚ → RowCls
deriving DecidableEq, Repr

/-- Classify a cell per the specification's reading. -/
def classifyCell (v : JSVal) : RowCls :=
  if v = JSVal.undef then RowCls.missing
  else
    match jsToNumber v with
    | none => RowCls.nanVal
    | some x => RowCls.numVal x

/-- The spec's `normalize`: `(v − domainMin) / (domainMax − domainMin)`,
defined as `0` on a degenerate domain (`NaN` propagates otherwise). -/
def specNormalize (dom : ℚ × ℚ) (v : Option ℚ) : Option ℚ :=
  if dom.2 - dom.1 = 0 then some 0
  else v.map (fun x => (x - dom.1) / (dom.2 - dom.1))

/-- The numeric `[domainMin, domainMax]` of a dimension, as the spec reads
it (string dimensions never reach the numeric case). -/
def specDomain (db : Database) (d : String) : ℚ × ℚ :=
  match db.dimensionDomains d with
  | Domain.range lo hi => (lo, hi)
  | Domain.vals _ => (0, 0)

/-- The claim's per-dimension distance term, word for word: equality
distance on categorical dimensions; with a `NaN` query value, `0` iff the
row value is also `NaN`; `1` when the query value is defined but the row
value is missing; otherwise `|normalize(query) − normalize(row)|`. -/
def specClaimTerm (db : Database) (query row : String → JSVal) (d : String) :
    Option ℚ :=
  if query d = JSVal.undef then some 0
  else if db.dimensionTypes d = DimType.STRING then
    some (if row d = query d then 0 else 1)
  else
    match classifyCell (query d) with
    | RowCls.missing => some 0
    | RowCls.nanVal =>
      match classifyCell (row d) with
      | RowCls.nanVal => some 0
      | _ => some 1
    | RowCls.numVal q =>
      match classifyCell (row d) with
      | RowCls.missing => some 1
      | RowCls.nanVal =>
        jsAbs (jsSub (specNormalize (specDomain db d) (some q))
          (specNormalize (specDomain db d) none))
      | RowCls.numVal rx =>
        jsAbs (jsSub (specNormalize (specDomain db d) (some q))
          (specNormalize (specDomain db d) (some rx)))

/-- The amended per-dimension distance term: as `specClaimTerm`, except
that with a `NaN` query value the term is `0` when the row value is `NaN`
*or missing* (they form one equivalence class), and `1` only when the row
value is a number. -/
def specAmendedTerm (db : Database) (query row : String → JSVal) (d : String) :
    Option ℚ :=
  if query d = JSVal.undef then some 0
  else if db.dimensionTypes d = DimType.STRING then
    some (if row d = query d then 0 else 1)
  else
    match classifyCell (query d) with
    | RowCls.missing => some 0
    | RowCls.nanVal =>
      match classifyCell (row d) with
      | RowCls.numVal _ => some 1
      | _ => some 0
    | RowCls.numVal q =>
      match classifyCell (row d) with
      | RowCls.missing => some 1
      | RowCls.nanVal =>
        jsAbs (jsSub (specNormalize (specDomain db d) (some q))
          (specNormalize (specDomain db d) none))
      | RowCls.numVal rx =>
        jsAbs (jsSub (specNormalize (specDomain db d) (some q))
          (specNormalize (specDomain db d) (some rx)))

/-- The claim's distance: sum of the per-dimension terms. -/
def specClaimDist (db : Database) (query row : String → JSVal) : Option ℚ :=
  (db.dimensions.map (specClaimTerm db query row)).foldr jsAdd (some 0)

/-- The amended distance: sum of the amended per-dimension terms. -/
def specAmendedDist (db : Database) (query row : String → JSVal) : Option ℚ :=
  (db.dimensions.map (specAmendedTerm db query row)).foldr jsAdd (some 0)

/-!
## Selection Engine (`CINEMA_COMPONENTS.Pcoord`)

Brush extents live in rendered (pixel) coordinate space; scales are
arbitrary functions from dimension and value to a rendered position.
-/

/-- `Pcoord.prototype.getYPosition`: `NaN` values on a non-string
dimension are pinned to `internalHeight` (the NaN tick); otherwise the
dimension's scale is applied to the row's value. -/
def getYPosition (db : Database) (internalHeight : ℚ) (y : String → JSVal → ℚ)
    (d : String) (p : String → JSVal) : ℚ :=
  if !(isStringDimension db d) && jsIsNaN (p d) then internalHeight
  else y d (p d)

/-- The per-row test of `Pcoord.prototype.updateSelection`: a row stays
selected iff on every dimension with a (truthy) brush extent its rendered
position lies within the extent, inclusively. -/
def rowSelectedBy (dims : List String) (brushExtents : String → Option (ℚ × ℚ))
    (getY : String → (String → JSVal) → ℚ) (row : String → JSVal) : Bool :=
  dims.all (fun d =>
    match brushExtents d with
    | none => true
    | some e => decide (e.1 ≤ getY d row) && decide (getY d row ≤ e.2))

/-- `Pcoord.prototype.updateSelection`'s recomputed selection: the indices
of the rows passing every active brush. -/
def updateSelection (dims : List String) (brushExtents : String → Option (ℚ × ℚ))
    (getY : String → (String → JSVal) → ℚ) (data : List (String → JSVal)) : List ℕ :=
  ((data.enum).filter (fun p => rowSelectedBy dims brushExtents getY p.2)).map Prod.fst

/-- The brush-extent update of the `axisBrush` event handler: store the
event's selection for dimension `d`, then delete it if its start and end
coordinates are the same. -/
def axisBrushExtents (ext : String → Option (ℚ × ℚ)) (d : String)
    (sel : Option (ℚ × ℚ)) : String → Option (ℚ × ℚ) :=
  fun d' =>
    if d' = d then
      match sel with
      | some e => if e.1 = e.2 then none else some e
      | none => none
    else ext d'

/-- The Pcoord state relevant to brushing: the stored brush extents, the
`dontUpdateSelectionOnBrush` suppression flag, and the stored selection. -/
structure PcoordState where
  brushExtents : String → Option (ℚ × ℚ)
  dontUpdateSelectionOnBrush : Bool
  selection : List ℕ

/-- One call of `updateSelection(force)` as a state transition, also
returning the list of `selectionchange` notifications it dispatches: the
new selection is stored and dispatched only when it differs from the old
one or `force` is set. -/
def updateSelectionStep (dims : List String) (getY : String → (String → JSVal) → ℚ)
    (data : List (String → JSVal)) (force : Bool) (st : PcoordState) :
    PcoordState × List (List ℕ) :=
  let newSelection := updateSelection dims st.brushExtents getY data
  if newSelection ≠ st.selection || force then
    ({ st with selection := newSelection }, [newSelection])
  else (st, [])

/-- One `axisBrush` event (brush moved on dimension `d` with the given
selection): the extents are updated, and `updateSelection()` runs unless
`dontUpdateSelectionOnBrush` is set. -/
def axisBrushStep (dims : List String) (getY : String → (String → JSVal) → ℚ)
    (data : List (String → JSVal)) (d : String) (sel : Option (ℚ × ℚ))
    (st : PcoordState) : PcoordState × List (List ℕ) :=
  let st1 := { st with brushExtents := axisBrushExtents st.brushExtents d sel }
  if st1.dontUpdateSelectionOnBrush then (st1, [])
  else updateSelectionStep dims getY data false st1

/-- The brush-move target used while resizing: a stored extent is scaled
by `internalHeight / oldHeight`; a missing extent moves to `null`. -/
def updateSizeBrushMove (oldHeight newHeight : ℚ) (e : Option (ℚ × ℚ)) :
    Option (ℚ × ℚ) :=
  e.map (fun p => (p.1 / oldHeight * newHeight, p.2 / oldHeight * newHeight))

/-- One iteration of the brush-rescaling loop in
`Pcoord.prototype.updateSize`: move dimension `d`'s brush to its
proportionally rescaled extent (the move fires `axisBrush`), accumulating
any dispatched notifications. -/
def updateSizeStep (dims : List String) (getY : String → (String → JSVal) → ℚ)
    (data : List (String → JSVal)) (oldHeight newHeight : ℚ)
    (acc : PcoordState × List (List ℕ)) (d : String) : PcoordState × List (List ℕ) :=
  ((axisBrushStep dims getY data d
      (updateSizeBrushMove oldHeight newHeight (acc.1.brushExtents d)) acc.1).1,
    acc.2 ++ (axisBrushStep dims getY data d
      (updateSizeBrushMove oldHeight newHeight (acc.1.brushExtents d)) acc.1).2)

/-- The brush-rescaling tail of `Pcoord.prototype.updateSize`:
set `dontUpdateSelectionOnBrush`, move every axis's brush to its
proportionally rescaled extent (each move fires `axisBrush`), then clear
the flag.  Returns the final state and every `selectionchange`
notification dispatched along the way. -/
def updateSize (dims : List String) (getY : String → (String → JSVal) → ℚ)
    (data : List (String → JSVal)) (oldHeight newHeight : ℚ) (st : PcoordState) :
    PcoordState × List (List ℕ) :=
  let st1 := { st with dontUpdateSelectionOnBrush := true }
  let res := dims.foldl (updateSizeStep dims getY data oldHeight newHeight) (st1, [])
  ({ res.1 with dontUpdateSelectionOnBrush := false }, res.2)

/-!
## Parser adequacy lemmas

`lexRest` runs the `exec` loop on a fuel equal to the remaining length;
these lemmas show every step consumes at least one character, so the fuel
is irrelevant as long as it is at least the text length.
-/

theorem quotedBody_length : ∀ cs content rest,
    quotedBody cs = some (content, rest) → rest.length ≤ cs.length := by
  intro cs
  induction cs using quotedBody.induct with
  | case1 => intro c r h; simp [quotedBody] at h
  | case2 rest c' r' hq ih =>
    intro c r h
    rw [quotedBody, hq] at h
    simp only [Option.some.injEq, Prod.mk.injEq] at h
    obtain ⟨h1, h2⟩ := h
    have := ih c' r' hq
    subst h2
    simp only [List.length_cons]
    omega
  | case3 rest hq ih =>
    intro c r h
    rw [quotedBody, hq] at h
    simp only [Option.some.injEq, Prod.mk.injEq] at h
    obtain ⟨h1, h2⟩ := h
    subst h2
    simp only [List.length_cons]
    omega
  | case4 rest hne =>
    intro c r h
    rw [quotedBody.eq_def] at h
    split at h
    · simp at h
    · rename_i r2 heq
      cases heq
      exact (hne r2 rfl).elim
    · rename_i rest1 heq
      injection heq with h1 h2
      simp only [Option.some.injEq, Prod.mk.injEq] at h
      obtain ⟨hc, hr⟩ := h
      subst h2
      subst hr
      simp
    · rename_i c0 rest0 hne1 hne2 heq
      injection heq with h1 h2
      exact absurd h1.symm (by simpa using hne2)
  | case5 c0 rest hne1 hne2 ih =>
    intro c r h
    rw [quotedBody.eq_def] at h
    split at h
    · simp at h
    · rename_i r2 heq
      injection heq with h1 h2
      exact absurd h1 hne2
    · rename_i heq
      injection heq with h1 h2
      exact absurd h1 hne2
    · rename_i c1 rest1 hne1' hne2' heq
      injection heq with h1 h2
      subst h1; subst h2
      simp only [Option.map_eq_some'] at h
      obtain ⟨p, hp, hpr⟩ := h
      have := ih p.1 p.2 (by rw [hp])
      have hr : r = p.2 := by
        have := congrArg Prod.snd hpr
        simpa using this.symm
      subst hr
      simp only [List.length_cons]
      omega

theorem lexValue_length (cs : List Char) : (lexValue cs).2.length ≤ cs.length := by
  rw [lexValue.eq_def]
  split
  · rename_i r
    split
    · rename_i content r2 hq
      have := quotedBody_length r content r2 hq
      simp only [List.length_cons]
      omega
    · simp [List.length_drop]
  · simp [List.length_drop]

theorem lexRestFuel_congr : ∀ (f1 : ℕ) (cs : List Char) (f2 : ℕ),
    cs.length ≤ f1 → cs.length ≤ f2 → lexRestFuel f1 cs = lexRestFuel f2 cs := by
  intro f1 cs
  induction f1, cs using lexRestFuel.induct with
  | case1 cs =>
    intro f2 h1 h2
    have : cs = [] := by cases cs <;> simp_all
    subst this
    cases f2 <;> simp [lexRestFuel]
  | case2 fuel =>
    intro f2 h1 h2
    cases f2 <;> simp [lexRestFuel]
  | case3 fuel rest ih =>
    intro f2 h1 h2
    cases f2 with
    | zero => simp at h2
    | succ g2 =>
      simp only [lexRestFuel, List.cons.injEq, true_and]
      apply ih <;>
        · have := lexValue_length rest
          simp only [List.length_cons] at h1 h2
          omega
  | case4 fuel rest ih =>
    intro f2 h1 h2
    cases f2 with
    | zero => simp at h2
    | succ g2 =>
      simp only [lexRestFuel, List.cons.injEq, true_and]
      apply ih <;>
        · have := lexValue_length rest
          simp only [List.length_cons] at h1 h2
          omega
  | case5 fuel rest ih =>
    intro f2 h1 h2
    cases f2 with
    | zero => simp at h2
    | succ g2 =>
      simp only [lexRestFuel, List.cons.injEq, true_and]
      apply ih <;>
        · have := lexValue_length rest
          simp only [List.length_cons] at h1 h2
          omega
  | case6 fuel rest hne ih =>
    intro f2 h1 h2
    cases f2 with
    | zero => simp at h2
    | succ g2 =>
      simp only [lexRestFuel, List.cons.injEq, true_and]
      apply ih <;>
        · have := lexValue_length rest
          simp only [List.length_cons] at h1 h2
          omega
  | case7 fuel c rest hn1 hn2 hn3 hn4 ih =>
    intro f2 h1 h2
    cases f2 with
    | zero => simp at h2
    | succ g2 =>
      have e1 : lexRestFuel (fuel+1) (c :: rest) = lexRestFuel fuel rest := by
        rw [lexRestFuel]
        · exact hn1
        · exact hn2
        · exact hn3
        · exact hn4
      have e2 : lexRestFuel (g2+1) (c :: rest) = lexRestFuel g2 rest := by
        rw [lexRestFuel]
        · exact hn1
        · exact hn2
        · exact hn3
        · exact hn4
      rw [e1, e2]
      apply ih <;>
        · simp only [List.length_cons] at h1 h2
          omega

/-!
## Shared helper lemmas
-/

/-- Membership in the index list produced by the source's
`forEach`-with-push pattern (`enum`, filter on the row, keep the index). -/
theorem mem_enumFilterMap {α : Type} (f : α → Bool) (l : List α) (i : ℕ) :
    (i ∈ ((l.enum.filter (fun p => f p.2)).map Prod.fst)) ↔
      ∃ h : i < l.length, f (l.get ⟨i, h⟩) = true := by
  simp only [List.mem_map, List.mem_filter]
  constructor
  · rintro ⟨⟨j, a⟩, ⟨hmem, hf⟩, rfl⟩
    rw [List.mk_mem_enum_iff_getElem?] at hmem
    have hj : j < l.length := by
      by_contra hh
      rw [List.getElem?_eq_none (le_of_not_lt hh)] at hmem
      simp at hmem
    refine ⟨hj, ?_⟩
    have hget : l[j] = a := by
      rw [List.getElem?_eq_getElem hj] at hmem
      exact Option.some.inj hmem
    simpa [List.get_eq_getElem, hget] using hf
  · rintro ⟨h, hf⟩
    refine ⟨(i, l.get ⟨i, h⟩), ⟨?_, hf⟩, rfl⟩
    rw [List.mk_mem_enum_iff_getElem?]
    simp [List.getElem?_eq_getElem h, List.get_eq_getElem]

/-!
## Claims
-/

/-- The per-row test of `updateSelection`, spelled out: a row passes iff
every brushed dimension puts its rendered position inside the extent. -/
theorem rowSelectedBy_iff (dims : List String) (ext : String → Option (ℚ × ℚ))
    (getY : String → (String → JSVal) → ℚ) (row : String → JSVal) :
    rowSelectedBy dims ext getY row = true ↔
      ∀ d ∈ dims, ∀ lo hi, ext d = some (lo, hi) →
        lo ≤ getY d row ∧ getY d row ≤ hi := by
  simp only [rowSelectedBy, List.all_eq_true]
  constructor
  · intro hall d hd lo hi he
    have := hall d hd
    rw [he] at this
    simpa using this
  · intro himp d hd
    cases hext : ext d with
    | none => simp
    | some e =>
      have := himp d hd e.1 e.2 (by rw [hext])
      simp [this.1, this.2]

/-- **C1** (confirmed): the recomputed selection contains exactly the row
indices whose rendered position lies inclusively within every active
brush extent; with no active extent, every row index is selected. -/
theorem claim_C1_selection_characterization (db : Database) (internalHeight : ℚ)
    (y : String → JSVal → ℚ) (dims : List String)
    (extents : String → Option (ℚ × ℚ)) (data : List (String → JSVal)) :
    (∀ i : ℕ,
      i ∈ updateSelection dims extents (getYPosition db internalHeight y) data ↔
        ∃ h : i < data.length, ∀ d ∈ dims, ∀ lo hi, extents d = some (lo, hi) →
          lo ≤ getYPosition db internalHeight y d (data.get ⟨i, h⟩) ∧
          getYPosition db internalHeight y d (data.get ⟨i, h⟩) ≤ hi) ∧
    ((∀ d ∈ dims, extents d = none) →
      updateSelection dims extents (getYPosition db internalHeight y) data =
        List.range data.length) := by
  constructor
  · intro i
    rw [updateSelection, mem_enumFilterMap]
    constructor
    · rintro ⟨h, hf⟩
      exact ⟨h, (rowSelectedBy_iff _ _ _ _).mp hf⟩
    · rintro ⟨h, hf⟩
      exact ⟨h, (rowSelectedBy_iff _ _ _ _).mpr hf⟩
  · intro hnone
    rw [updateSelection]
    have : (data.enum.filter
        (fun p => rowSelectedBy dims extents (getYPosition db internalHeight y) p.2)) =
        data.enum := by
      rw [List.filter_eq_self]
      intro p _
      rw [rowSelectedBy_iff]
      intro d hd lo hi he
      rw [hnone d hd] at he
      exact absurd he (by simp)
    rw [this]
    simp

/-- Witness for C1: with no active extent, the selection over a concrete
two-row dataset is all of `range 2`. -/
theorem claim_C1_selection_characterization_witness :
    updateSelection ["a"] (fun _ => none)
      (getYPosition (makeDatabase [[some "a", some "b"], [some "1", some "2"],
        [some "3", some "4"]]) 100 (fun _ _ => 0))
      (makeDatabase [[some "a", some "b"], [some "1", some "2"],
        [some "3", some "4"]]).data =
      List.range (makeDatabase [[some "a", some "b"], [some "1", some "2"],
        [some "3", some "4"]]).data.length :=
  (claim_C1_selection_characterization _ 100 (fun _ _ => 0) ["a"]
    (fun _ => none) _).2 (fun _ _ => rfl)

/-- **C6** (confirmed): every selected index is a valid row index, and
activating one additional brush extent (others and scales unchanged)
shrinks the selection (subset, hence no larger). -/
theorem claim_C6_bounds_and_monotone :
    (∀ (dims : List String) (extents : String → Option (ℚ × ℚ))
        (getY : String → (String → JSVal) → ℚ) (data : List (String → JSVal)) (i : ℕ),
      i ∈ updateSelection dims extents getY data → i < data.length) ∧
    (∀ (dims : List String) (extents : String → Option (ℚ × ℚ))
        (getY : String → (String → JSVal) → ℚ) (data : List (String → JSVal))
        (d0 : String) (e : ℚ × ℚ),
      extents d0 = none →
        (updateSelection dims (fun x => if x = d0 then some e else extents x) getY data
          ⊆ updateSelection dims extents getY data) ∧
        (updateSelection dims (fun x => if x = d0 then some e else extents x) getY
            data).length ≤ (updateSelection dims extents getY data).length) := by
  constructor
  · intro dims extents getY data i hi
    rw [updateSelection, mem_enumFilterMap] at hi
    exact hi.1
  · intro dims extents getY data d0 e h0
    have himp : ∀ p : ℕ × (String → JSVal),
        rowSelectedBy dims (fun x => if x = d0 then some e else extents x) getY p.2 =
          true →
        rowSelectedBy dims extents getY p.2 = true := by
      intro p hp
      rw [rowSelectedBy_iff] at hp ⊢
      intro d hd lo hi he
      by_cases hdd : d = d0
      · rw [hdd, h0] at he
        exact absurd he (by simp)
      · exact hp d hd lo hi (by rw [← he]; simp [hdd])
    have hsub : (data.enum.filter
          (fun p => rowSelectedBy dims (fun x => if x = d0 then some e else extents x)
            getY p.2)).Sublist
        (data.enum.filter (fun p => rowSelectedBy dims extents getY p.2)) :=
      List.monotone_filter_right _ himp
    have hmap := hsub.map Prod.fst
    exact ⟨hmap.subset, hmap.length_le⟩

/-- Witness for C6: a concrete in-bounds conclusion and a concrete
monotonicity conclusion. -/
theorem claim_C6_bounds_and_monotone_witness :
    (0 : ℕ) < 1 ∧
    (updateSelection ["a"] (fun x => if x = "a" then some ((1 : ℚ), (2 : ℚ)) else none)
      (fun _ _ => 0) [fun _ => JSVal.undef]).length ≤
      (updateSelection ["a"] (fun _ => none) (fun _ _ => 0)
        [fun _ => JSVal.undef]).length :=
  ⟨claim_C6_bounds_and_monotone.1 ["a"] (fun _ => none) (fun _ _ => 0)
      [fun _ => JSVal.undef] 0 (by decide),
    (claim_C6_bounds_and_monotone.2 ["a"] (fun _ => none) (fun _ _ => 0)
      [fun _ => JSVal.undef] "a" (1, 2) rfl).2⟩

/-- **C8** (confirmed): a brush event whose extent has `lo == hi` clears
the stored constraint for that dimension (leaving the others untouched),
and the cleared dimension constrains no row. -/
theorem claim_C8_degenerate_brush (extents : String → Option (ℚ × ℚ))
    (d : String) (a : ℚ) :
    axisBrushExtents extents d (some (a, a)) d = none ∧
    (∀ d', d' ≠ d → axisBrushExtents extents d (some (a, a)) d' = extents d') ∧
    (∀ (getY : String → (String → JSVal) → ℚ) (row : String → JSVal),
      rowSelectedBy [d] (axisBrushExtents extents d (some (a, a))) getY row = true) := by
  refine ⟨by simp [axisBrushExtents],
    fun d' hd' => by simp [axisBrushExtents, hd'], ?_⟩
  intro getY row
  simp [rowSelectedBy, axisBrushExtents]

/-- Witness for C8: a degenerate brush event at a concrete extent map. -/
theorem claim_C8_degenerate_brush_witness :
    axisBrushExtents (fun _ => some ((5 : ℚ), (7 : ℚ))) "a" (some (3, 3)) "a" = none ∧
    axisBrushExtents (fun _ => some ((5 : ℚ), (7 : ℚ))) "a" (some (3, 3)) "b" =
      some (5, 7) ∧
    rowSelectedBy ["a"] (axisBrushExtents (fun _ => some ((5 : ℚ), (7 : ℚ))) "a"
      (some (3, 3))) (fun _ _ => 0) (fun _ => JSVal.undef) = true :=
  ⟨(claim_C8_degenerate_brush _ "a" 3).1,
    (claim_C8_degenerate_brush _ "a" 3).2.1 "b" (by decide),
    (claim_C8_degenerate_brush _ "a" 3).2.2 _ _⟩

/-- **C4** (confirmed): for every integer `i` in `[-1, 256³−2]`, decoding
the RGB triple produced by encoding `i` returns `i`:
`colorToIndex (indexToColor i) = i`. -/
theorem claim_C4_codec_roundtrip (i : ℤ) (h1 : -1 ≤ i) (h2 : i ≤ 256 ^ 3 - 2) :
    colorToIndex (indexToColor i) = i := by
  have hguard : ¬ i > 256 * 256 * 256 := by omega
  rw [indexToColor, if_neg hguard]
  simp only [colorToIndex]
  simp only [Int.fdiv_eq_ediv _ (by norm_num : (0:ℤ) ≤ 256)]
  omega

/-- Witness for C4: the roundtrip at the concrete index `12345`. -/
theorem claim_C4_codec_roundtrip_witness :
    (-1 ≤ (12345 : ℤ)) ∧ ((12345 : ℤ) ≤ 256 ^ 3 - 2) ∧
      colorToIndex (indexToColor 12345) = 12345 :=
  ⟨by norm_num, by norm_num,
    claim_C4_codec_roundtrip 12345 (by norm_num) (by norm_num)⟩

/-- **C5** (code bug): the claim says every index above `256³−2` encodes
to saturated white, but the source's guard is `i > 256³`, so the two
indices `256³−1` and `256³` fall through to the arithmetic branch and
produce the out-of-range channel `b = 256` (not a valid RGB color, and
not white); only indices above `256³` saturate. -/
theorem claim_C5_saturation_off_by_two :
    indexToColor (256 ^ 3 - 1) = (0, 0, 256) ∧
    indexToColor (256 ^ 3) = (1, 0, 256) ∧
    indexToColor (256 ^ 3 + 1) = (255, 255, 255) ∧
    indexToColor (256 ^ 3 - 2) = (255, 255, 255) := by
  refine ⟨?_, ?_, ?_, ?_⟩ <;> decide

/-- **C3** (code bug): on the CSV `"a,b\n1,2\n3,4\n"` the domains are
`[1,3]` and `[2,4]` as claimed, but both dimensions are typed `FLOAT`,
not `INTEGER`: the source applies `Number.isInteger` to the raw string
cell (which is `false` for every string, there being no numeric
coercion), so the `INTEGER` branch of the type inference is
unreachable. -/
theorem claim_C3_integer_branch_unreachable :
    parseCSV "a,b\n1,2\n3,4\n" =
      some [[some "a", some "b"], [some "1", some "2"], [some "3", some "4"]] ∧
    (makeDatabase [[some "a", some "b"], [some "1", some "2"],
      [some "3", some "4"]]).dimensions = ["a", "b"] ∧
    (makeDatabase [[some "a", some "b"], [some "1", some "2"],
      [some "3", some "4"]]).dimensionTypes "a" = DimType.FLOAT ∧
    (makeDatabase [[some "a", some "b"], [some "1", some "2"],
      [some "3", some "4"]]).dimensionTypes "b" = DimType.FLOAT ∧
    (makeDatabase [[some "a", some "b"], [some "1", some "2"],
      [some "3", some "4"]]).dimensionDomains "a" = Domain.range 1 3 ∧
    (makeDatabase [[some "a", some "b"], [some "1", some "2"],
      [some "3", some "4"]]).dimensionDomains "b" = Domain.range 2 4 ∧
    DimType.FLOAT ≠ DimType.INTEGER := by
  refine ⟨?_, ?_, ?_, ?_, ?_, ?_, ?_⟩ <;> decide

/-- **C9** (confirmed): the parser decodes an empty unquoted field to the
missing value (`none`) — and only the empty one — an empty quoted field
to the empty string, and the two are distinct; end to end, the text
`a,,b\nc,"",d` parses with a missing cell in row 0 and an empty-string
cell in row 1. -/
theorem claim_C9_empty_vs_missing :
    (∀ s : String, cellOfMatch (CellMatch.unquoted s) = none ↔ s = "") ∧
    cellOfMatch (CellMatch.quoted "") = some "" ∧
    (none : Option String) ≠ some "" ∧
    parseCSV "a,,b\nc,\"\",d" =
      some [[some "a", none, some "b"], [some "c", some "", some "d"]] := by
  refine ⟨?_, by decide, by decide, by decide⟩
  intro s
  by_cases h : s = "" <;> simp [cellOfMatch, h]

/-- **C10** (confirmed): a dimension in which no row has a present value
is typed `STRING` (categorical), with its domain the per-row value list;
the numeric branch is never taken for such a column. -/
theorem claim_C10_all_missing_is_string (data_arr : List (List (Option String)))
    (d : String)
    (h : ∀ r ∈ (makeDatabase data_arr).data, r d = JSVal.undef) :
    (makeDatabase data_arr).dimensionTypes d = DimType.STRING ∧
    (makeDatabase data_arr).dimensionDomains d =
      Domain.vals ((makeDatabase data_arr).data.map (fun r => r d)) := by
  simp only [makeDatabase] at h ⊢
  set data := data_arr.tail.map
    (fun cells => rowObj ((data_arr.headD []).map (fun o => o.getD "undefined")) cells)
    with hdata
  have htype : inferType data d = DimType.STRING := by
    have hfind : data.find? (fun r => truthy (r d)) = none := by
      rw [List.find?_eq_none]
      intro r hr
      rw [h r hr]
      simp [truthy]
    have hval : inferVal data d = JSVal.undef := by
      rw [inferVal.eq_def, hfind]
      match hd : data with
      | [] => rfl
      | r :: rest =>
        simp only []
        exact h r (by rw [hd]; exact List.mem_cons_self r rest)
    rw [inferType.eq_def, hval]
    rfl
  exact ⟨htype, by rw [htype]⟩

/-- Witness for C10: a concrete dataset whose second column is entirely
missing is typed `STRING` with the per-row (all-`undefined`) domain. -/
theorem claim_C10_all_missing_is_string_witness :
    (∀ r ∈ (makeDatabase [[some "a", some "b"], [some "1", none],
      [some "2", none]]).data, r "b" = JSVal.undef) ∧
    (makeDatabase [[some "a", some "b"], [some "1", none],
      [some "2", none]]).dimensionTypes "b" = DimType.STRING ∧
    (makeDatabase [[some "a", some "b"], [some "1", none],
      [some "2", none]]).dimensionDomains "b" =
      Domain.vals ((makeDatabase [[some "a", some "b"], [some "1", none],
        [some "2", none]]).data.map (fun r => r "b")) :=
  ⟨by decide,
    (claim_C10_all_missing_is_string _ "b" (by decide)).1,
    (claim_C10_all_missing_is_string _ "b" (by decide)).2⟩


/-!
## Resize suppression (`updateSize`) lemmas and C7
-/

/-- An `axisBrush` event while `dontUpdateSelectionOnBrush` is set only
updates the stored extents: no recomputation, no notification. -/
theorem axisBrushStep_suppressed (dims : List String)
    (getY : String → (String → JSVal) → ℚ) (data : List (String → JSVal))
    (d : String) (sel : Option (ℚ × ℚ)) (st : PcoordState)
    (h : st.dontUpdateSelectionOnBrush = true) :
    axisBrushStep dims getY data d sel st =
      ({ st with brushExtents := axisBrushExtents st.brushExtents d sel }, []) := by
  rw [axisBrushStep]
  simp [h]

/-- One resize brush move under the suppression flag: the extent for `d`
is replaced by its rescaled value and nothing is dispatched. -/
theorem updateSizeStep_suppressed (dims : List String)
    (getY : String → (String → JSVal) → ℚ) (data : List (String → JSVal))
    (oldH newH : ℚ) (acc : PcoordState × List (List ℕ)) (d : String)
    (h : acc.1.dontUpdateSelectionOnBrush = true) :
    updateSizeStep dims getY data oldH newH acc d =
      ({ acc.1 with brushExtents := (axisBrushExtents acc.1.brushExtents d
          (updateSizeBrushMove oldH newH (acc.1.brushExtents d))) }, acc.2) := by
  rw [updateSizeStep, axisBrushStep_suppressed dims getY data d _ acc.1 h]
  simp

/-- Invariant of the resize loop run under the suppression flag: the flag
stays set, no notification is appended, the stored selection is untouched,
each processed dimension's extent becomes the `axisBrush` update of its
rescaled value, and unprocessed dimensions keep their extents. -/
theorem updateSize_fold_inv (dims : List String)
    (getY : String → (String → JSVal) → ℚ) (data : List (String → JSVal))
    (oldH newH : ℚ) :
    ∀ (todo : List String) (acc : PcoordState × List (List ℕ)),
      acc.1.dontUpdateSelectionOnBrush = true →
      todo.Nodup →
      (todo.foldl (updateSizeStep dims getY data oldH newH)
        acc).1.dontUpdateSelectionOnBrush = true ∧
      (todo.foldl (updateSizeStep dims getY data oldH newH) acc).2 = acc.2 ∧
      (todo.foldl (updateSizeStep dims getY data oldH newH) acc).1.selection =
        acc.1.selection ∧
      (∀ d ∈ todo, (todo.foldl (updateSizeStep dims getY data oldH newH)
          acc).1.brushExtents d =
        axisBrushExtents acc.1.brushExtents d
          (updateSizeBrushMove oldH newH (acc.1.brushExtents d)) d) ∧
      (∀ d, d ∉ todo → (todo.foldl (updateSizeStep dims getY data oldH newH)
          acc).1.brushExtents d = acc.1.brushExtents d) := by
  intro todo
  induction todo with
  | nil => intro acc hflag hnodup; exact ⟨hflag, rfl, rfl, by simp, fun d _ => rfl⟩
  | cons d0 todo ih =>
    intro acc hflag hnodup
    rw [List.nodup_cons] at hnodup
    obtain ⟨hd0, hnodup'⟩ := hnodup
    rw [List.foldl_cons, updateSizeStep_suppressed dims getY data oldH newH acc d0 hflag]
    obtain ⟨i1, i2, i3, i4, i5⟩ := ih ({ acc.1 with brushExtents :=
      (axisBrushExtents acc.1.brushExtents d0
        (updateSizeBrushMove oldH newH (acc.1.brushExtents d0))) }, acc.2) hflag hnodup'
    refine ⟨i1, i2, i3, ?_, ?_⟩
    · intro d hd
      rcases List.mem_cons.mp hd with rfl | hd'
      · rw [i5 d hd0]
      · rw [i4 d hd']
        have hne : d ≠ d0 := fun hh => hd0 (hh ▸ hd')
        simp [axisBrushExtents, hne]
    · intro d hd
      have hd1 : d ∉ todo := fun hh => hd (List.mem_cons_of_mem _ hh)
      have hd2 : d ≠ d0 := fun hh => hd (hh ▸ List.mem_cons_self d0 todo)
      rw [i5 d hd1]
      simp [axisBrushExtents, hd2]

/-- A proportionally rescaled non-degenerate extent is stored verbatim by
the `axisBrush` handler (the rescaling cannot make it degenerate when both
heights are nonzero). -/
theorem axisBrushExtents_move_self (f : String → Option (ℚ × ℚ)) (d : String)
    (oldH newH : ℚ) (hold : oldH ≠ 0) (hnew : newH ≠ 0)
    (hnd : ∀ a b, f d = some (a, b) → a ≠ b) :
    axisBrushExtents f d (updateSizeBrushMove oldH newH (f d)) d =
      updateSizeBrushMove oldH newH (f d) := by
  cases hE : f d with
  | none => simp [axisBrushExtents, updateSizeBrushMove]
  | some e =>
    obtain ⟨a, b⟩ := e
    have hab : a ≠ b := hnd a b hE
    have hne : a / oldH * newH ≠ b / oldH * newH := by
      intro hh
      have h1 : a / oldH = b / oldH := mul_right_cancel₀ hnew hh
      field_simp [hold] at h1
      exact hab h1
    simp [axisBrushExtents, updateSizeBrushMove, hne]

/-- **C7** (corrected): during `updateSize` every stored brush extent is
rescaled proportionally with selection recomputation suppressed (no
`selectionchange` notification fires), and the flag is cleared at the
end — but, contrary to the claim's last part, *no* recomputation is
forced: the stored selection is exactly what it was before the resize. -/
theorem claim_C7_resize_suppression (dims : List String)
    (getY : String → (String → JSVal) → ℚ) (data : List (String → JSVal))
    (oldH newH : ℚ) (st : PcoordState)
    (hnodup : dims.Nodup) (hold : oldH ≠ 0) (hnew : newH ≠ 0)
    (hnd : ∀ d a b, st.brushExtents d = some (a, b) → a ≠ b) :
    (updateSize dims getY data oldH newH st).2 = [] ∧
    (updateSize dims getY data oldH newH st).1.selection = st.selection ∧
    (updateSize dims getY data oldH newH st).1.dontUpdateSelectionOnBrush = false ∧
    (∀ d ∈ dims, (updateSize dims getY data oldH newH st).1.brushExtents d =
      updateSizeBrushMove oldH newH (st.brushExtents d)) ∧
    (∀ d, d ∉ dims → (updateSize dims getY data oldH newH st).1.brushExtents d =
      st.brushExtents d) := by
  obtain ⟨i1, i2, i3, i4, i5⟩ := updateSize_fold_inv dims getY data oldH newH dims
    ({ st with dontUpdateSelectionOnBrush := true }, []) rfl hnodup
  refine ⟨i2, i3, rfl, ?_, ?_⟩
  · intro d hd
    exact (i4 d hd).trans
      (axisBrushExtents_move_self st.brushExtents d oldH newH hold hnew (hnd d))
  · intro d hd
    exact i5 d hd


/-- Counterexample to C7 as stated: a concrete resize dispatches no
notification and leaves the stale selection `[0, 1]` in place even though
recomputing against the rescaled brush would give `[0]` — so no
recomputation is forced when the resize completes. -/
theorem claim_C7_no_forced_recompute :
    (updateSize ["a"] (fun _ r => (jsToNumber (r "a")).getD 0)
      [fun _ => JSVal.num 2, fun _ => JSVal.num 10] 100 200
      (PcoordState.mk (fun d => if d = "a" then some (1, 3) else none) false
        [0, 1])).2 = [] ∧
    (updateSize ["a"] (fun _ r => (jsToNumber (r "a")).getD 0)
      [fun _ => JSVal.num 2, fun _ => JSVal.num 10] 100 200
      (PcoordState.mk (fun d => if d = "a" then some (1, 3) else none) false
        [0, 1])).1.selection = [0, 1] ∧
    (updateSize ["a"] (fun _ r => (jsToNumber (r "a")).getD 0)
      [fun _ => JSVal.num 2, fun _ => JSVal.num 10] 100 200
      (PcoordState.mk (fun d => if d = "a" then some (1, 3) else none) false
        [0, 1])).1.brushExtents "a" = some (2, 6) ∧
    updateSelection ["a"]
      (updateSize ["a"] (fun _ r => (jsToNumber (r "a")).getD 0)
        [fun _ => JSVal.num 2, fun _ => JSVal.num 10] 100 200
        (PcoordState.mk (fun d => if d = "a" then some (1, 3) else none) false
          [0, 1])).1.brushExtents
      (fun _ r => (jsToNumber (r "a")).getD 0)
      [fun _ => JSVal.num 2, fun _ => JSVal.num 10] = [0] ∧
    ([0] : List ℕ) ≠ [0, 1] := by
  obtain ⟨i1, i2, i3, i4, i5⟩ := updateSize_fold_inv ["a"]
    (fun _ r => (jsToNumber (r "a")).getD 0)
    [fun _ => JSVal.num 2, fun _ => JSVal.num 10] 100 200 ["a"]
    (PcoordState.mk (fun d => if d = "a" then some (1, 3) else none) true [0, 1], [])
    rfl (by decide)
  have hext : (updateSize ["a"] (fun _ r => (jsToNumber (r "a")).getD 0)
      [fun _ => JSVal.num 2, fun _ => JSVal.num 10] 100 200
      (PcoordState.mk (fun d => if d = "a" then some (1, 3) else none) false
        [0, 1])).1.brushExtents "a" = some (2, 6) := by
    refine (i4 "a" (by decide)).trans ?_
    have hmove : updateSizeBrushMove 100 200 (some ((1 : ℚ), (3 : ℚ))) =
        some (2, 6) := by
      simp only [updateSizeBrushMove, Option.map_some']
      norm_num
    show axisBrushExtents _ "a"
      (updateSizeBrushMove 100 200 (some ((1 : ℚ), (3 : ℚ)))) "a" = some (2, 6)
    rw [hmove]
    simp [axisBrushExtents]
  refine ⟨i2, i3, hext, ?_, by decide⟩
  rw [updateSelection.eq_def]
  have hrow : ∀ row : String → JSVal,
      rowSelectedBy ["a"]
        (updateSize ["a"] (fun _ r => (jsToNumber (r "a")).getD 0)
          [fun _ => JSVal.num 2, fun _ => JSVal.num 10] 100 200
          (PcoordState.mk (fun d => if d = "a" then some (1, 3) else none) false
            [0, 1])).1.brushExtents
        (fun _ r => (jsToNumber (r "a")).getD 0) row =
      (decide ((2:ℚ) ≤ (jsToNumber (row "a")).getD 0) &&
        decide ((jsToNumber (row "a")).getD 0 ≤ (6:ℚ))) := by
    intro row
    rw [rowSelectedBy]
    simp [hext]
  simp only [hrow]
  decide

/-- Witness for C7 (amended): the suppression theorem applied to a
concrete resize. -/
theorem claim_C7_resize_suppression_witness :
    (updateSize ["a"] (fun _ r => (jsToNumber (r "a")).getD 0)
      [fun _ => JSVal.num 2, fun _ => JSVal.num 10] 100 200
      (PcoordState.mk (fun d => if d = "a" then some (1, 3) else none) false
        [0, 1])).2 = [] ∧
    (updateSize ["a"] (fun _ r => (jsToNumber (r "a")).getD 0)
      [fun _ => JSVal.num 2, fun _ => JSVal.num 10] 100 200
      (PcoordState.mk (fun d => if d = "a" then some (1, 3) else none) false
        [0, 1])).1.brushExtents "a" =
      updateSizeBrushMove 100 200 (some (1, 3)) := by
  have hnd : ∀ d a b,
      (PcoordState.mk (fun d => if d = "a" then some ((1 : ℚ), (3 : ℚ)) else none) false
        [0, 1]).brushExtents d = some (a, b) → a ≠ b := by
    intro d a b h
    by_cases hd : d = "a"
    · subst hd
      revert h
      simp only [if_pos rfl, Option.some.injEq, Prod.mk.injEq]
      rintro ⟨rfl, rfl⟩
      norm_num
    · simp [hd] at h
  constructor
  · exact (claim_C7_resize_suppression ["a"] (fun _ r => (jsToNumber (r "a")).getD 0)
      [fun _ => JSVal.num 2, fun _ => JSVal.num 10] 100 200
      (PcoordState.mk (fun d => if d = "a" then some (1, 3) else none) false [0, 1])
      (by decide) (by norm_num) (by norm_num) hnd).1
  · have := (claim_C7_resize_suppression ["a"] (fun _ r => (jsToNumber (r "a")).getD 0)
      [fun _ => JSVal.num 2, fun _ => JSVal.num 10] 100 200
      (PcoordState.mk (fun d => if d = "a" then some (1, 3) else none) false [0, 1])
      (by decide) (by norm_num) (by norm_num) hnd).2.2.2.1 "a" (by decide)
    simpa using this


/-!
## Similarity-query refinement (C2)
-/

/-- NaN-propagating addition is associative. -/
theorem jsAdd_assoc (a b c : Option ℚ) : jsAdd (jsAdd a b) c = jsAdd a (jsAdd b c) := by
  cases a <;> cases b <;> cases c <;> simp [jsAdd, add_assoc]

/-- Adding the number `0` on the right is the identity. -/
theorem jsAdd_some_zero (a : Option ℚ) : jsAdd a (some 0) = a := by
  cases a <;> simp [jsAdd]

/-- Adding the number `0` on the left is the identity. -/
theorem some_zero_jsAdd (a : Option ℚ) : jsAdd (some 0) a = a := by
  cases a <;> simp [jsAdd]

/-- A left fold that adds one amount per element equals the sum of the
amounts added to the initial value. -/
theorem foldl_jsAdd_general (B : Option ℚ → String → Option ℚ) (T : String → Option ℚ)
    (hB : ∀ dist d, B dist d = jsAdd dist (T d)) :
    ∀ (l : List String) (init : Option ℚ),
      l.foldl B init = jsAdd init ((l.map T).foldr jsAdd (some 0)) := by
  intro l
  induction l with
  | nil => intro init; rw [List.foldl_nil, List.map_nil, List.foldr_nil, jsAdd_some_zero]
  | cons d l ih =>
    intro init
    rw [List.foldl_cons, List.map_cons, List.foldr_cons, ih, hB, jsAdd_assoc]

/-- The accumulated distance of `getSimilar` is the sum of its
per-dimension terms. -/
theorem getSimilarDist_eq_terms (db : Database) (query row : String → JSVal) :
    getSimilarDist db query row =
      (db.dimensions.map (getSimilarTerm db query row)).foldr jsAdd (some 0) := by
  rw [getSimilarDist]
  rw [foldl_jsAdd_general _ (getSimilarTerm db query row) ?_ db.dimensions (some 0)]
  · rw [some_zero_jsAdd]
  · intro dist d
    rw [getSimilarTerm]
    by_cases hq : query d ≠ JSVal.undef
    · rw [if_pos hq, if_pos hq]
      split_ifs <;> rfl
    · rw [if_neg hq, if_neg hq, jsAdd_some_zero]


/-- Every cell of a constructed database's rows is a string or
`undefined` (rows come from the parsed grid). -/
theorem makeDatabase_row_shape (g : List (List (Option String))) :
    ∀ r ∈ (makeDatabase g).data, ∀ d, r d = JSVal.undef ∨ ∃ s, r d = JSVal.str s := by
  intro r hr d
  simp only [makeDatabase, List.mem_map] at hr
  obtain ⟨cells, hcells, rfl⟩ := hr
  rw [rowObj]
  cases lastIdxOf ((g.headD []).map (fun o => o.getD "undefined")) d with
  | none => exact Or.inl rfl
  | some i =>
    show optToVal (cells.getD i none) = JSVal.undef ∨
      ∃ s, optToVal (cells.getD i none) = JSVal.str s
    cases cells.getD i none with
    | none => exact Or.inl rfl
    | some s => exact Or.inr ⟨s, rfl⟩

/-- A non-string dimension of a constructed database has a numeric
`[min, max]` domain. -/
theorem makeDatabase_domain_range (g : List (List (Option String))) (d : String)
    (h : (makeDatabase g).dimensionTypes d ≠ DimType.STRING) :
    ∃ lo hi, (makeDatabase g).dimensionDomains d = Domain.range lo hi := by
  simp only [makeDatabase] at h ⊢
  cases ht : inferType (g.tail.map (fun cells =>
      rowObj ((g.headD []).map (fun o => o.getD "undefined")) cells)) d with
  | STRING => exact absurd ht h
  | INTEGER => exact ⟨_, _, rfl⟩
  | FLOAT => exact ⟨_, _, rfl⟩

/-- On a numeric `[min, max]` domain the source's `getNormalizedValue`
is the specification's `normalize`. -/
theorem getNormalizedValue_range (lo hi : ℚ) (v : Option ℚ) :
    getNormalizedValue v (some lo) (some hi) = specNormalize (lo, hi) v := by
  rw [getNormalizedValue, specNormalize]
  by_cases hd : hi - lo = 0
  · rw [if_pos (by simp [jsSub, hd]), if_pos hd]
  · rw [if_neg (by simp [jsSub, hd]), if_neg hd]
    cases v with
    | none => rfl
    | some a => simp [jsSub]

/-- Per-dimension agreement between the source's distance term and the
amended specification table, for well-typed query points over a
constructed database. -/
theorem getSimilarTerm_eq_amended (g : List (List (Option String)))
    (query : String → JSVal)
    (hstr : ∀ d, (makeDatabase g).dimensionTypes d = DimType.STRING →
      query d = JSVal.undef ∨ ∃ s, query d = JSVal.str s)
    (hnum : ∀ d, (makeDatabase g).dimensionTypes d ≠ DimType.STRING →
      query d = JSVal.undef ∨ query d = JSVal.nan ∨ ∃ x, query d = JSVal.num x)
    (row : String → JSVal)
    (hrow : ∀ d, row d = JSVal.undef ∨ ∃ s, row d = JSVal.str s)
    (d : String) :
    getSimilarTerm (makeDatabase g) query row d =
      specAmendedTerm (makeDatabase g) query row d := by
  rw [getSimilarTerm, specAmendedTerm]
  by_cases hq : query d = JSVal.undef
  · rw [if_neg (by simp [hq]), if_pos hq]
  · rw [if_pos hq, if_neg hq]
    by_cases ht : (makeDatabase g).dimensionTypes d = DimType.STRING
    · rw [if_pos (by simp [isStringDimension, ht]), if_pos ht]
      rcases hstr d ht with h | ⟨s, hs⟩
      · exact absurd h hq
      · rcases hrow d with h0 | ⟨a, ha⟩
        · rw [h0, hs]
          simp [jsLooseEq]
        · rw [ha, hs]
          by_cases hab : a = s
          · simp [jsLooseEq, hab]
          · simp [jsLooseEq, hab]
    · rw [if_neg (by simp [isStringDimension, ht]), if_neg ht]
      rcases hnum d ht with h | h | ⟨x, hx⟩
      · exact absurd h hq
      · -- query is NaN
        rw [h]
        rw [if_pos (by simp [jsIsNaN, jsToNumber])]
        have hcq : classifyCell JSVal.nan = RowCls.nanVal := by
          simp [classifyCell, jsToNumber]
        rw [hcq]
        rcases hrow d with h0 | ⟨s, hs⟩
        · rw [h0]
          simp [jsIsNaN, jsToNumber, classifyCell]
        · rw [hs]
          cases hp : parseJSNumber s with
          | none => simp [jsIsNaN, jsToNumber, classifyCell, hp]
          | some v => simp [jsIsNaN, jsToNumber, classifyCell, hp]
      · -- query is a number
        rw [hx]
        rw [if_neg (by simp [jsIsNaN, jsToNumber])]
        have hcq : classifyCell (JSVal.num x) = RowCls.numVal x := by
          simp [classifyCell, jsToNumber]
        rw [hcq]
        obtain ⟨lo, hi, hdom⟩ := makeDatabase_domain_range g d ht
        have hends : domainEndpoints ((makeDatabase g).dimensionDomains d) =
            (some lo, some hi) := by rw [hdom]; rfl
        have hspecdom : specDomain (makeDatabase g) d = (lo, hi) := by
          rw [specDomain, hdom]
        rcases hrow d with h0 | ⟨s, hs⟩
        · rw [h0]
          simp [classifyCell]
        · rw [hs]
          have hne : JSVal.str s ≠ JSVal.undef := by simp
          rw [if_neg hne]
          cases hp : parseJSNumber s with
          | none =>
            have hc : classifyCell (JSVal.str s) = RowCls.nanVal := by
              simp [classifyCell, jsToNumber, hp]
            rw [hc, hends, hspecdom]
            simp only [jsToNumber]
            rw [hp]
            rw [getNormalizedValue_range, getNormalizedValue_range]
          | some v =>
            have hc : classifyCell (JSVal.str s) = RowCls.numVal v := by
              simp [classifyCell, jsToNumber, hp]
            rw [hc, hends, hspecdom]
            simp only [jsToNumber]
            rw [hp]
            rw [getNormalizedValue_range, getNormalizedValue_range]


/-- The source's accumulated distance equals the amended
specification distance. -/
theorem getSimilarDist_eq_amended (g : List (List (Option String)))
    (query : String → JSVal)
    (hstr : ∀ d, (makeDatabase g).dimensionTypes d = DimType.STRING →
      query d = JSVal.undef ∨ ∃ s, query d = JSVal.str s)
    (hnum : ∀ d, (makeDatabase g).dimensionTypes d ≠ DimType.STRING →
      query d = JSVal.undef ∨ query d = JSVal.nan ∨ ∃ x, query d = JSVal.num x)
    (row : String → JSVal)
    (hrow : ∀ d, row d = JSVal.undef ∨ ∃ s, row d = JSVal.str s) :
    getSimilarDist (makeDatabase g) query row =
      specAmendedDist (makeDatabase g) query row := by
  rw [getSimilarDist_eq_terms, specAmendedDist]
  congr 1
  exact List.map_congr_left
    (fun d _ => getSimilarTerm_eq_amended g query hstr hnum row hrow d)

/-- **C2** (corrected): over any loaded dataset, `getSimilar` returns
exactly the row indices whose *amended* specification distance is within
the threshold, for query points whose values are well-typed for their
dimensions (strings/absent on categorical dimensions; numbers, `NaN` or
absent on numeric ones).  The amendment: with a `NaN` query value the
per-dimension term is `0` when the row value is `NaN` *or missing* (the
claim's literal table gives `1` for a missing row value). -/
theorem claim_C2_similarity_characterization (g : List (List (Option String)))
    (query : String → JSVal) (t : ℚ)
    (hstr : ∀ d, (makeDatabase g).dimensionTypes d = DimType.STRING →
      query d = JSVal.undef ∨ ∃ s, query d = JSVal.str s)
    (hnum : ∀ d, (makeDatabase g).dimensionTypes d ≠ DimType.STRING →
      query d = JSVal.undef ∨ query d = JSVal.nan ∨ ∃ x, query d = JSVal.num x) :
    ∀ i : ℕ, i ∈ getSimilar (makeDatabase g) query t ↔
      ∃ h : i < (makeDatabase g).data.length,
        jsLe (specAmendedDist (makeDatabase g) query
          ((makeDatabase g).data.get ⟨i, h⟩)) t = true := by
  intro i
  rw [getSimilar]
  refine (mem_enumFilterMap
    (fun r => jsLe (getSimilarDist (makeDatabase g) query r) t)
    (makeDatabase g).data i).trans ?_
  constructor <;> rintro ⟨h, hf⟩ <;> refine ⟨h, ?_⟩
  · rw [← getSimilarDist_eq_amended g query hstr hnum _
      (makeDatabase_row_shape g _ (List.get_mem _ _ h))]
    exact hf
  · rw [getSimilarDist_eq_amended g query hstr hnum _
      (makeDatabase_row_shape g _ (List.get_mem _ _ h))]
    exact hf


/-- Counterexample to C2 as stated: on the dataset parsed from
`a,b\n1,\n3,4` and the query `{b: NaN}` with threshold `0`, the code
selects row `0` (a missing cell satisfies `isNaN`, contributing `0`),
but the claim's distance table gives that row distance `1`, excluding
it. -/
theorem claim_C2_nan_vs_missing :
    parseCSV "a,b\n1,\n3,4" =
      some [[some "a", some "b"], [some "1", none], [some "3", some "4"]] ∧
    0 ∈ getSimilar
      (makeDatabase [[some "a", some "b"], [some "1", none], [some "3", some "4"]])
      (fun d => if d = "b" then JSVal.nan else JSVal.undef) 0 ∧
    jsLe (specClaimDist
      (makeDatabase [[some "a", some "b"], [some "1", none], [some "3", some "4"]])
      (fun d => if d = "b" then JSVal.nan else JSVal.undef)
      ((makeDatabase [[some "a", some "b"], [some "1", none],
        [some "3", some "4"]]).data.getD 0 (fun _ => JSVal.undef))) 0 = false := by
  have hdims : (makeDatabase [[some "a", some "b"], [some "1", none],
      [some "3", some "4"]]).dimensions = ["a", "b"] := by decide
  have hta : getSimilarTerm
      (makeDatabase [[some "a", some "b"], [some "1", none], [some "3", some "4"]])
      (fun d => if d = "b" then JSVal.nan else JSVal.undef)
      (rowObj ["a", "b"] [some "1", none]) "a" = some 0 := by decide
  have htb : getSimilarTerm
      (makeDatabase [[some "a", some "b"], [some "1", none], [some "3", some "4"]])
      (fun d => if d = "b" then JSVal.nan else JSVal.undef)
      (rowObj ["a", "b"] [some "1", none]) "b" = some 0 := by decide
  have hdist0 : getSimilarDist
      (makeDatabase [[some "a", some "b"], [some "1", none], [some "3", some "4"]])
      (fun d => if d = "b" then JSVal.nan else JSVal.undef)
      (rowObj ["a", "b"] [some "1", none]) = some 0 := by
    rw [getSimilarDist_eq_terms, hdims]
    simp only [List.map_cons, List.map_nil, List.foldr_cons, List.foldr_nil, hta, htb]
    norm_num [jsAdd]
  refine ⟨by decide, ?_, ?_⟩
  · rw [getSimilar]
    refine (mem_enumFilterMap (fun r => jsLe (getSimilarDist
      (makeDatabase [[some "a", some "b"], [some "1", none], [some "3", some "4"]])
      (fun d => if d = "b" then JSVal.nan else JSVal.undef) r) 0)
      (makeDatabase [[some "a", some "b"], [some "1", none],
        [some "3", some "4"]]).data 0).mpr ⟨by decide, ?_⟩
    show jsLe (getSimilarDist
      (makeDatabase [[some "a", some "b"], [some "1", none], [some "3", some "4"]])
      (fun d => if d = "b" then JSVal.nan else JSVal.undef)
      (rowObj ["a", "b"] [some "1", none]) ) 0 = true
    rw [hdist0]
    decide
  · have hca : specClaimTerm
        (makeDatabase [[some "a", some "b"], [some "1", none], [some "3", some "4"]])
        (fun d => if d = "b" then JSVal.nan else JSVal.undef)
        (rowObj ["a", "b"] [some "1", none]) "a" = some 0 := by decide
    have hcb : specClaimTerm
        (makeDatabase [[some "a", some "b"], [some "1", none], [some "3", some "4"]])
        (fun d => if d = "b" then JSVal.nan else JSVal.undef)
        (rowObj ["a", "b"] [some "1", none]) "b" = some 1 := by decide
    have hcd : specClaimDist
        (makeDatabase [[some "a", some "b"], [some "1", none], [some "3", some "4"]])
        (fun d => if d = "b" then JSVal.nan else JSVal.undef)
        (rowObj ["a", "b"] [some "1", none]) = some 1 := by
      rw [specClaimDist, hdims]
      simp only [List.map_cons, List.map_nil, List.foldr_cons, List.foldr_nil, hca, hcb]
      norm_num [jsAdd]
    show jsLe (specClaimDist _ _ (rowObj ["a", "b"] [some "1", none])) 0 = false
    rw [hcd]
    decide


/-- Witness for C2 (amended): the characterization applied at a concrete
dataset, query and threshold yields a concrete membership. -/
theorem claim_C2_similarity_witness :
    0 ∈ getSimilar
      (makeDatabase [[some "a", some "b"], [some "1", none], [some "3", some "4"]])
      (fun d => if d = "b" then JSVal.nan else JSVal.undef) 0 := by
  have hstr : ∀ d, (makeDatabase [[some "a", some "b"], [some "1", none],
      [some "3", some "4"]]).dimensionTypes d = DimType.STRING →
      (fun d => if d = "b" then JSVal.nan else JSVal.undef) d = JSVal.undef ∨
        ∃ s, (fun d => if d = "b" then JSVal.nan else JSVal.undef) d = JSVal.str s := by
    intro d h
    by_cases hd : d = "b"
    · subst hd
      exact absurd h (by decide)
    · exact Or.inl (by simp [hd])
  have hnum : ∀ d, (makeDatabase [[some "a", some "b"], [some "1", none],
      [some "3", some "4"]]).dimensionTypes d ≠ DimType.STRING →
      (fun d => if d = "b" then JSVal.nan else JSVal.undef) d = JSVal.undef ∨
        (fun d => if d = "b" then JSVal.nan else JSVal.undef) d = JSVal.nan ∨
        ∃ x, (fun d => if d = "b" then JSVal.nan else JSVal.undef) d = JSVal.num x := by
    intro d h
    by_cases hd : d = "b"
    · exact Or.inr (Or.inl (by simp [hd]))
    · exact Or.inl (by simp [hd])
  refine (claim_C2_similarity_characterization
    [[some "a", some "b"], [some "1", none], [some "3", some "4"]]
    (fun d => if d = "b" then JSVal.nan else JSVal.undef) 0 hstr hnum 0).mpr
    ⟨by decide, ?_⟩
  have hdims : (makeDatabase [[some "a", some "b"], [some "1", none],
      [some "3", some "4"]]).dimensions = ["a", "b"] := by decide
  have hsa : specAmendedTerm
      (makeDatabase [[some "a", some "b"], [some "1", none], [some "3", some "4"]])
      (fun d => if d = "b" then JSVal.nan else JSVal.undef)
      (rowObj ["a", "b"] [some "1", none]) "a" = some 0 := by decide
  have hsb : specAmendedTerm
      (makeDatabase [[some "a", some "b"], [some "1", none], [some "3", some "4"]])
      (fun d => if d = "b" then JSVal.nan else JSVal.undef)
      (rowObj ["a", "b"] [some "1", none]) "b" = some 0 := by decide
  have hsd : specAmendedDist
      (makeDatabase [[some "a", some "b"], [some "1", none], [some "3", some "4"]])
      (fun d => if d = "b" then JSVal.nan else JSVal.undef)
      (rowObj ["a", "b"] [some "1", none]) = some 0 := by
    rw [specAmendedDist, hdims]
    simp only [List.map_cons, List.map_nil, List.foldr_cons, List.foldr_nil, hsa, hsb]
    norm_num [jsAdd]
  show jsLe (specAmendedDist _ _ (rowObj ["a", "b"] [some "1", none])) 0 = true
  rw [hsd]
  decide

end Cinema
